import Mathlib

/-!
Verification of the PG1003/observer publish/subscribe library (observer.h).

The embedding follows the source closely:

* an observer adapter is identified by a number (its heap address);
* a subject registry is the `m_observers` vector of `detail::subject_base`;
* `notify` produces the trace of observer invocations;
* the destructors of `subject_base`, `connection_owner` and `scoped_observer`
  are folds over the (reversed) registries, with the dynamic behaviour of the
  virtual `disconnect` passed in as a state transformer;
* delete events and entries into subject objects are recorded in traces so
  that double-free and use-after-free questions become statements about lists.
-/

namespace PGObserver

/-- Identity of a heap-allocated observer adapter. -/
abbrev ObsId := Nat

/-- Removal of the most recently added matching entry: the source searches the
vector from `crbegin()` to `crend()` with `std::find` and erases the element
found, i.e. the last occurrence.  Shared by `subject_base::disconnect` and by
`connection_owner::find_observer` / `remove_observer`. -/
def erase_last (l : List ObsId) (o : ObsId) : List ObsId :=
  (l.reverse.erase o).reverse

/-- The `subject_base::connect` member: `m_observers.push_back( o )`. -/
def subject_connect (reg : List ObsId) (o : ObsId) : List ObsId :=
  reg ++ [o]

/-- The `subject_base::disconnect` member: erase the most recently added
matching entry, a silent no-op when the observer is not registered. -/
def subject_disconnect (reg : List ObsId) (o : ObsId) : List ObsId :=
  erase_last reg o

/-- The `subject::notify` member: loop over `m_observers` front to back,
invoking each observer's `notify` with the same argument values.  The result
is the trace of invocations, an (observer, arguments) pair per call. -/
def subject_notify {α : Type} (reg : List ObsId) (args : α) : List (ObsId × α) :=
  reg.foldl (fun acc o => acc ++ [(o, args)]) []

/-- The destructor of `subject_base`: iterate the registry from `rbegin()` to
`crend()` and call the virtual `disconnect()` of each observer.  The dynamic
behaviour of that virtual is the state transformer `disco`. -/
def subject_base_dtor {σ : Type} (reg : List ObsId) (disco : σ → ObsId → σ) (s : σ) : σ :=
  reg.reverse.foldl disco s

/-- Trace of the disconnection notices issued by the `subject_base` destructor. -/
def disconnect_trace (reg : List ObsId) : List ObsId :=
  subject_base_dtor reg (fun tr o => tr ++ [o]) []

/-- The `blockable_subject::notify` member: the observers are notified only
when `block_count` is zero; otherwise the event is dropped. -/
def blockable_notify {α : Type} (block_count : Int) (reg : List ObsId) (args : α) :
    List (ObsId × α) :=
  if block_count = 0 then subject_notify reg args else []

/-- The `blockable_subject::block` member: `++block_count`. -/
def block (block_count : Int) : Int :=
  block_count + 1

/-- The `blockable_subject::unblock` member: decrement only when the count is
positive. -/
def unblock (block_count : Int) : Int :=
  if block_count > 0 then block_count - 1 else block_count

/-- The `blockable_subject::set_block_state` member, returning the new count
and the returned boolean. -/
def set_block_state (block_count : Int) (block_state : Bool) : Int × Bool :=
  if block_count ≠ 0 ∧ block_state = false then (0, true)
  else if block_count = 0 ∧ block_state = true then (1, false)
  else (block_count, block_state)

/-- The parameter binding performed by `detail::invoke_helper`: the callable's
declared parameter pack `A...` binds the first `K` notification arguments and
the trailing pack `Ar&&...` absorbs (discards) the rest.  When fewer arguments
than declared parameters are supplied no overload matches, which is the
compile-time failure; that case is modelled by `none`. -/
def bind_formals {α : Type} : Nat → List α → Option (List α)
  | 0, _ => some []
  | _ + 1, [] => none
  | k + 1, a :: rest => (bind_formals k rest).map (fun l => a :: l)

/-- The `pg::invoke` function: forward through `invoke_helper`, so the callable
of arity `K` receives exactly the arguments bound by `bind_formals`. -/
def invoke {α R : Type} (K : Nat) (f : List α → R) (args : List α) : Option R :=
  (bind_formals K args).map f

/-- Joint state of one `connection_owner` and the subjects its adapters are
connected to.  `subjReg s` is subject `s`'s `m_observers`, `ownerReg` the
owner's `m_observers`, `deleted` the trace of `delete` expressions executed on
adapters, and `touched` the trace of subject objects entered through an
adapter's `m_subject` reference. -/
structure OState where
  subjReg : Nat → List ObsId
  ownerReg : List ObsId
  deleted : List ObsId
  touched : List Nat

/-- The `connection_owner::remove_observer` member: find the observer from the
end of the owner's registry; when found, erase it and `delete` it. -/
def remove_observer (st : OState) (o : ObsId) : OState :=
  if o ∈ st.ownerReg then
    { st with ownerReg := erase_last st.ownerReg o, deleted := st.deleted ++ [o] }
  else st

/-- The `owner_observer::remove_from_subject` member:
`m_subject.disconnect( this )`.  The subject object entered through the stored
reference is recorded in `touched`. -/
def remove_from_subject (ad : ObsId → Nat) (o : ObsId) (st : OState) : OState :=
  { st with
    subjReg := fun s =>
      if s = ad o then subject_disconnect (st.subjReg (ad o)) o else st.subjReg s,
    touched := st.touched ++ [ad o] }

/-- The `owner_observer` constructor: `m_owner.add_observer( this )` followed by
`m_subject.connect( this )`, for an adapter `o` whose subject is `ad o`. -/
def owner_connect (ad : ObsId → Nat) (o : ObsId) (st : OState) : OState :=
  { st with
    ownerReg := st.ownerReg ++ [o],
    subjReg := fun s =>
      if s = ad o then subject_connect (st.subjReg (ad o)) o else st.subjReg s }

/-- Destruction of subject `s`: the `subject_base` destructor calls each
registered observer's virtual `disconnect()` in reverse registration order; for
owner-managed adapters that virtual is `m_owner.remove_observer( this )`.  The
subject object then ceases to exist together with its registry. -/
def destroy_subject (s : Nat) (st : OState) : OState :=
  let st1 := subject_base_dtor (st.subjReg s) remove_observer st
  { st1 with subjReg := fun x => if x = s then [] else st1.subjReg x }

/-- The `connection_owner::disconnect` member: look the handle's observer up in
the owner's registry (from the end); when found, detach it from its subject,
erase it from the registry and `delete` it; otherwise do nothing.  A default
constructed handle holds a null observer, modelled by `none`. -/
def owner_disconnect (ad : ObsId → Nat) (c : Option ObsId) (st : OState) : OState :=
  match c with
  | none => st
  | some o =>
    if o ∈ st.ownerReg then
      let st1 := remove_from_subject ad o st
      { st1 with ownerReg := erase_last st1.ownerReg o, deleted := st1.deleted ++ [o] }
    else st

/-- One iteration of the `connection_owner` destructor loop: detach the
adapter from its subject (`remove_from_subject`) and `delete` it. -/
def owner_dtor_step (ad : ObsId → Nat) (st : OState) (o : ObsId) : OState :=
  let st2 := remove_from_subject ad o st
  { st2 with deleted := st2.deleted ++ [o] }

/-- The `connection_owner` destructor: iterate the registry from `crbegin()`
to `crend()`, detach each adapter from its subject and `delete` it; the vector
itself then goes away. -/
def destroy_owner (ad : ObsId → Nat) (st : OState) : OState :=
  let st1 := st.ownerReg.reverse.foldl (owner_dtor_step ad) st
  { st1 with ownerReg := [] }

/-- Well-formed joint state of one `connection_owner` and its subjects: the
registries are duplicate free (each adapter is a distinct heap object that is
connected exactly once), every subject-registered observer is an adapter of
that subject managed by the owner, and every owned adapter is registered at
its subject. -/
def WF (ad : ObsId → Nat) (st : OState) : Prop :=
  st.ownerReg.Nodup ∧
  (∀ s, (st.subjReg s).Nodup) ∧
  (∀ o s, o ∈ st.subjReg s → ad o = s ∧ o ∈ st.ownerReg) ∧
  (∀ o, o ∈ st.ownerReg → o ∈ st.subjReg (ad o))

/-- State of one subject holding scoped observers.  `subjReg` is the subject's
registry, `backref o` whether adapter `o`'s `m_subject` pointer is non-null,
`deleted` the trace of adapter deletions and `subjCalls` the trace of
`m_subject->disconnect( this )` calls made by adapter destructors. -/
structure SState where
  subjReg : List ObsId
  backref : ObsId → Bool
  deleted : List ObsId
  subjCalls : List ObsId

/-- The `scoped_observer` constructor: store the subject pointer and
`m_subject->connect( this )`. -/
def scoped_connect (o : ObsId) (st : SState) : SState :=
  { st with
    subjReg := subject_connect st.subjReg o,
    backref := fun x => if x = o then true else st.backref x }

/-- The `scoped_observer::disconnect` virtual, called by the subject's
destructor: `m_subject = nullptr`. -/
def scoped_null_backref (st : SState) (o : ObsId) : SState :=
  { st with backref := fun x => if x = o then false else st.backref x }

/-- Destruction of the subject of scoped observers: the `subject_base`
destructor calls each scoped observer's `disconnect()`, which nulls the stored
subject pointer (`m_subject = nullptr`); the registry then ceases to exist. -/
def destroy_scoped_subject (st : SState) : SState :=
  let st1 := subject_base_dtor st.subjReg scoped_null_backref st
  { st1 with subjReg := [] }

/-- The `scoped_observer` destructor: when the subject pointer is still set,
call `m_subject->disconnect( this )` (recorded in `subjCalls`); the adapter is
then freed. -/
def delete_adapter (o : ObsId) (st : SState) : SState :=
  if st.backref o then
    { st with
      subjReg := subject_disconnect st.subjReg o,
      subjCalls := st.subjCalls ++ [o],
      deleted := st.deleted ++ [o] }
  else
    { st with deleted := st.deleted ++ [o] }

/-- Evaluation of `delete m_observer`, where a null handle deletes nothing. -/
def sc_delete (c : Option ObsId) (st : SState) : SState :=
  match c with
  | none => st
  | some o => delete_adapter o st

/-- The `scoped_connection::reset` member: `delete m_observer` and null the
handle. -/
def sc_reset (c : Option ObsId) (st : SState) : Option ObsId × SState :=
  (none, sc_delete c st)

/-- The `scoped_connection` move assignment: `delete m_observer`, take the
source's observer and null the source.  The result is (new destination, new
source, new state). -/
def sc_move_assign (dst src : Option ObsId) (st : SState) :
    Option ObsId × Option ObsId × SState :=
  (src, none, sc_delete dst st)

/-- The `scoped_connection` destructor: `delete m_observer`. -/
def sc_dtor (c : Option ObsId) (st : SState) : SState :=
  sc_delete c st

/-- A concrete adapter-to-subject assignment: both adapters on subject 0. -/
def exAd : ObsId → Nat := fun _ => 0

/-- A concrete owner state: adapters 0 and 1 both connected to subject 0. -/
def exSt : OState :=
  { subjReg := fun s => if s = 0 then [0, 1] else [],
    ownerReg := [0, 1],
    deleted := [],
    touched := [] }

/-- A concrete scoped state: adapter 7 connected, its subject pointer set. -/
def exS : SState :=
  { subjReg := [7],
    backref := fun x => x == 7,
    deleted := [],
    subjCalls := [] }

/-! ## Helper lemmas -/

lemma foldl_append_eq_map {α β : Type} (f : α → β) (l : List α) (acc : List β) :
    l.foldl (fun acc o => acc ++ [f o]) acc = acc ++ l.map f := by
  induction l generalizing acc with
  | nil => simp
  | cons a t ih => simp [ih]

lemma subject_notify_eq_map {α : Type} (reg : List ObsId) (args : α) :
    subject_notify reg args = reg.map (fun o => (o, args)) := by
  simpa using foldl_append_eq_map (fun o => (o, args)) reg []

lemma erase_last_not_mem {l : List ObsId} {o : ObsId} (h : o ∉ l) :
    erase_last l o = l := by
  unfold erase_last
  rw [List.erase_of_not_mem (by simpa using h), List.reverse_reverse]

lemma erase_last_eq_filter {l : List ObsId} (h : l.Nodup) (o : ObsId) :
    erase_last l o = l.filter (fun x => x ≠ o) := by
  unfold erase_last
  rw [(List.nodup_reverse.mpr h).erase_eq_filter o, ← List.filter_reverse,
    List.reverse_reverse]
  apply List.filter_congr
  intro x _
  simp only [bne, decide_not, Bool.beq_eq_decide_eq]

lemma mem_erase_last_iff {l : List ObsId} (h : l.Nodup) {x o : ObsId} :
    x ∈ erase_last l o ↔ x ∈ l ∧ x ≠ o := by
  rw [erase_last_eq_filter h]
  simp

lemma erase_last_nodup {l : List ObsId} (h : l.Nodup) (o : ObsId) :
    (erase_last l o).Nodup := by
  rw [erase_last_eq_filter h]
  exact h.filter _

lemma bind_formals_eq_take {α : Type} :
    ∀ (K : Nat) (args : List α), K ≤ args.length → bind_formals K args = some (args.take K)
  | 0, args, _ => by simp [bind_formals]
  | _ + 1, [], h => by simp at h
  | K + 1, a :: rest, h => by
    have ih := bind_formals_eq_take K rest (by simpa using h)
    simp [bind_formals, ih]

lemma fold_remove_observer (L : List ObsId) :
    ∀ (st : OState), st.ownerReg.Nodup → L.Nodup → (∀ o ∈ L, o ∈ st.ownerReg) →
      (L.foldl remove_observer st).ownerReg
          = st.ownerReg.filter (fun x => decide (x ∉ L)) ∧
      (L.foldl remove_observer st).deleted = st.deleted ++ L ∧
      (L.foldl remove_observer st).subjReg = st.subjReg ∧
      (L.foldl remove_observer st).touched = st.touched := by
  induction L with
  | nil =>
    intro st _ _ _
    refine ⟨?_, by simp, rfl, rfl⟩
    rw [List.filter_eq_self.mpr (fun x _ => by simp)]
    rfl
  | cons o L ih =>
    intro st hN hL hmem
    have ho : o ∈ st.ownerReg := hmem o (by simp)
    have hstep : remove_observer st o =
        { st with ownerReg := erase_last st.ownerReg o, deleted := st.deleted ++ [o] } := by
      simp [remove_observer, ho]
    have hL' : L.Nodup := (List.nodup_cons.mp hL).2
    have hoL : o ∉ L := (List.nodup_cons.mp hL).1
    have hN' : (erase_last st.ownerReg o).Nodup := erase_last_nodup hN o
    have hmem' : ∀ x ∈ L, x ∈ erase_last st.ownerReg o := by
      intro x hx
      exact (mem_erase_last_iff hN).mpr
        ⟨hmem x (by simp [hx]), fun hxo => hoL (hxo ▸ hx)⟩
    have hfold := ih (remove_observer st o) (by rw [hstep]; exact hN') (hL')
      (by rw [hstep]; exact hmem')
    rw [List.foldl_cons] at *
    refine ⟨?_, ?_, ?_, ?_⟩
    · rw [hfold.1, hstep]
      show (erase_last st.ownerReg o).filter _ = _
      rw [erase_last_eq_filter hN o, List.filter_filter]
      apply List.filter_congr
      intro x _
      simp only [List.mem_cons, not_or, decide_not, Bool.not_eq_true']
      cases hxo : decide (x = o) <;> cases hxL : decide (x ∈ L) <;> simp_all
    · rw [hfold.2.1, hstep]
      simp
    · rw [hfold.2.2.1, hstep]
    · rw [hfold.2.2.2, hstep]

lemma destroy_subject_spec (ad : ObsId → Nat) (st : OState) (s : Nat) (hW : WF ad st) :
    (destroy_subject s st).ownerReg
        = st.ownerReg.filter (fun x => decide (x ∉ st.subjReg s)) ∧
    (destroy_subject s st).deleted = st.deleted ++ (st.subjReg s).reverse ∧
    (destroy_subject s st).touched = st.touched ∧
    (∀ x, (destroy_subject s st).subjReg x = if x = s then [] else st.subjReg x) := by
  obtain ⟨hN, hsub, hmem_s, _⟩ := hW
  have hfold := fold_remove_observer (st.subjReg s).reverse st hN
    (List.nodup_reverse.mpr (hsub s))
    (fun o ho => (hmem_s o s (List.mem_reverse.mp ho)).2)
  refine ⟨?_, ?_, ?_, ?_⟩
  · show (((st.subjReg s).reverse.foldl remove_observer st).ownerReg) = _
    rw [hfold.1]
    apply List.filter_congr
    intro x _
    simp
  · show ((st.subjReg s).reverse.foldl remove_observer st).deleted = _
    exact hfold.2.1
  · show ((st.subjReg s).reverse.foldl remove_observer st).touched = _
    exact hfold.2.2.2
  · intro x
    show (if x = s then [] else ((st.subjReg s).reverse.foldl remove_observer st).subjReg x) = _
    rw [hfold.2.2.1]

lemma owner_dtor_step_fields (ad : ObsId → Nat) (st : OState) (o : ObsId) :
    (owner_dtor_step ad st o).deleted = st.deleted ++ [o] ∧
    (owner_dtor_step ad st o).touched = st.touched ++ [ad o] ∧
    (owner_dtor_step ad st o).ownerReg = st.ownerReg ∧
    (∀ s2, (owner_dtor_step ad st o).subjReg s2
        = if s2 = ad o then subject_disconnect (st.subjReg (ad o)) o else st.subjReg s2) :=
  ⟨rfl, rfl, rfl, fun _ => rfl⟩

lemma fold_owner_dtor (ad : ObsId → Nat) (L : List ObsId) :
    ∀ (st : OState), (∀ s2, (st.subjReg s2).Nodup) →
      (L.foldl (owner_dtor_step ad) st).deleted = st.deleted ++ L ∧
      (L.foldl (owner_dtor_step ad) st).touched = st.touched ++ L.map ad ∧
      (L.foldl (owner_dtor_step ad) st).ownerReg = st.ownerReg ∧
      (∀ s2, ((L.foldl (owner_dtor_step ad) st).subjReg s2).Nodup) ∧
      (∀ s2 x, x ∈ (L.foldl (owner_dtor_step ad) st).subjReg s2 ↔
        (x ∈ st.subjReg s2 ∧ ¬(x ∈ L ∧ ad x = s2))) := by
  induction L with
  | nil =>
    intro st hsub
    exact ⟨by simp, by simp, rfl, hsub, by simp⟩
  | cons o L ih =>
    intro st hsub
    have hsub' : ∀ s2, ((owner_dtor_step ad st o).subjReg s2).Nodup := by
      intro s2
      rw [(owner_dtor_step_fields ad st o).2.2.2 s2]
      split
      · exact erase_last_nodup (hsub (ad o)) o
      · exact hsub s2
    have hfold := ih (owner_dtor_step ad st o) hsub'
    rw [List.foldl_cons] at *
    refine ⟨?_, ?_, ?_, hfold.2.2.2.1, ?_⟩
    · rw [hfold.1, (owner_dtor_step_fields ad st o).1]
      simp
    · rw [hfold.2.1, (owner_dtor_step_fields ad st o).2.1]
      simp
    · rw [hfold.2.2.1, (owner_dtor_step_fields ad st o).2.2.1]
    · intro s2 x
      rw [hfold.2.2.2.2 s2 x, (owner_dtor_step_fields ad st o).2.2.2 s2]
      by_cases hs2 : s2 = ad o
      · rw [if_pos hs2]
        rw [show subject_disconnect (st.subjReg (ad o)) o = erase_last (st.subjReg (ad o)) o
            from rfl, mem_erase_last_iff (hsub (ad o))]
        subst hs2
        constructor
        · rintro ⟨⟨hx, hxo⟩, hnL⟩
          refine ⟨hx, ?_⟩
          rintro ⟨hmem, had⟩
          rcases List.mem_cons.mp hmem with h | h
          · exact hxo h
          · exact hnL ⟨h, had⟩
        · rintro ⟨hx, hn⟩
          have hxo : x ≠ o := by
            rintro rfl
            exact hn ⟨by simp, rfl⟩
          refine ⟨⟨hx, hxo⟩, ?_⟩
          rintro ⟨hmem, had⟩
          exact hn ⟨by simp [hmem], had⟩
      · rw [if_neg hs2]
        constructor
        · rintro ⟨hx, hn⟩
          refine ⟨hx, ?_⟩
          rintro ⟨hmem, had⟩
          rcases List.mem_cons.mp hmem with h | h
          · exact hs2 (h ▸ had.symm)
          · exact hn ⟨h, had⟩
        · rintro ⟨hx, hn⟩
          refine ⟨hx, ?_⟩
          rintro ⟨hmem, had⟩
          exact hn ⟨by simp [hmem], had⟩

lemma exSt_WF : WF exAd exSt := by
  refine ⟨by simp [exSt], ?_, ?_, ?_⟩
  · intro s
    by_cases hs : s = 0 <;> simp [exSt, hs]
  · intro o s h
    by_cases hs : s = 0
    · subst hs
      refine ⟨rfl, ?_⟩
      simpa [exSt] using h
    · simp [exSt, hs] at h
  · intro o h
    simpa [exSt, exAd] using h

lemma fold_null_backref (L : List ObsId) :
    ∀ (st : SState),
      (L.foldl scoped_null_backref st).subjReg = st.subjReg ∧
      (L.foldl scoped_null_backref st).deleted = st.deleted ∧
      (L.foldl scoped_null_backref st).subjCalls = st.subjCalls ∧
      (∀ x, (L.foldl scoped_null_backref st).backref x
          = if x ∈ L then false else st.backref x) := by
  induction L with
  | nil =>
    intro st
    exact ⟨rfl, rfl, rfl, fun x => by simp⟩
  | cons o L ih =>
    intro st
    have hfold := ih (scoped_null_backref st o)
    rw [List.foldl_cons]
    refine ⟨hfold.1, hfold.2.1, hfold.2.2.1, ?_⟩
    intro x
    rw [hfold.2.2.2 x]
    show (if x ∈ L then false else if x = o then false else st.backref x)
        = if x ∈ o :: L then false else st.backref x
    by_cases hxL : x ∈ L
    · simp [hxL]
    · by_cases hxo : x = o <;> simp [hxL, hxo]

lemma destroy_scoped_subject_spec (st : SState) :
    (destroy_scoped_subject st).subjReg = [] ∧
    (destroy_scoped_subject st).deleted = st.deleted ∧
    (destroy_scoped_subject st).subjCalls = st.subjCalls ∧
    (∀ x, x ∈ st.subjReg → (destroy_scoped_subject st).backref x = false) := by
  have hfold := fold_null_backref st.subjReg.reverse st
  refine ⟨rfl, ?_, ?_, ?_⟩
  · show (st.subjReg.reverse.foldl scoped_null_backref st).deleted = _
    exact hfold.2.1
  · show (st.subjReg.reverse.foldl scoped_null_backref st).subjCalls = _
    exact hfold.2.2.1
  · intro x hx
    show (st.subjReg.reverse.foldl scoped_null_backref st).backref x = false
    rw [hfold.2.2.2 x, if_pos (List.mem_reverse.mpr hx)]

/-! ## Claims -/

/-- C1: `subject::notify` invokes the notify function of every currently
registered observer exactly once, in registration order (first connected is
invoked first), passing the same argument values to every observer. -/
theorem notify_delivers_in_registration_order {α : Type} (reg : List ObsId) (args : α) :
    (subject_notify reg args).map Prod.fst = reg ∧
    (∀ p ∈ subject_notify reg args, p.snd = args) ∧
    (∀ o : ObsId, ((subject_notify reg args).map Prod.fst).count o = reg.count o) := by
  have h1 : (subject_notify reg args).map Prod.fst = reg := by
    rw [subject_notify_eq_map]
    induction reg with
    | nil => rfl
    | cons a t ih => simpa using ih
  refine ⟨h1, ?_, fun o => by rw [h1]⟩
  intro p hp
  rw [subject_notify_eq_map] at hp
  obtain ⟨o, _, rfl⟩ := List.mem_map.mp hp
  rfl

/-- C3: the `subject_base` destructor issues the disconnection notice exactly
once for each registered observer, in reverse registration order. -/
theorem subject_dtor_reverse_order (reg : List ObsId) :
    disconnect_trace reg = reg.reverse ∧
    ∀ o : ObsId, (disconnect_trace reg).count o = reg.count o := by
  have h : disconnect_trace reg = reg.reverse := by
    unfold disconnect_trace subject_base_dtor
    simpa using foldl_append_eq_map (fun o => o) reg.reverse []
  exact ⟨h, fun o => by rw [h, List.count_reverse]⟩

/-- C4: for a callable with formal parameter count `K` and a notification
argument list of length at least `K`, the invocation adapter calls the callable
with exactly the first `K` arguments in their original order and discards the
rest; `K = 0` is valid and passes no arguments. -/
theorem invoke_truncates {α R : Type} (K : Nat) (f : List α → R) (args : List α)
    (h : K ≤ args.length) :
    bind_formals K args = some (args.take K) ∧
    (args.take K).length = K ∧
    (∃ rest, args = args.take K ++ rest) ∧
    invoke K f args = some (f (args.take K)) ∧
    bind_formals 0 args = some [] := by
  have hb := bind_formals_eq_take K args h
  refine ⟨hb, ?_, ⟨args.drop K, (List.take_append_drop K args).symm⟩, ?_, rfl⟩
  · rw [List.length_take]
    omega
  · rw [invoke, hb]
    rfl

/-- Witness for C4: a two-parameter callable on a three-argument notification. -/
theorem invoke_truncates_w :
    invoke 2 (fun l : List Nat => l.length) [10, 20, 30] =
      some ((fun l : List Nat => l.length) ([10, 20, 30].take 2)) :=
  (invoke_truncates 2 (fun l : List Nat => l.length) [10, 20, 30] (by decide)).2.2.2.1

/-- C6: `block` increments the counter, `unblock` decrements but never below
zero (extra unblocks are no-ops), a notify on a blocked subject invokes no
observer (the event is dropped), `block; block; unblock` still suppresses
delivery, and notify behaves normally once the counter is zero. -/
theorem blockable_counter_semantics {α : Type} (c : Int) (reg : List ObsId) (args : α)
    (h : 0 ≤ c) :
    block c = c + 1 ∧
    0 ≤ unblock c ∧
    (c = 0 → unblock c = c) ∧
    (0 < c → unblock c = c - 1) ∧
    (c ≠ 0 → blockable_notify c reg args = []) ∧
    unblock (block (block 0)) ≠ 0 ∧
    blockable_notify (unblock (block (block 0))) reg args = [] ∧
    unblock (unblock (unblock (block (block 0)))) = unblock (unblock (block (block 0))) ∧
    blockable_notify 0 reg args = subject_notify reg args := by
  have h2 : unblock (block (block 0)) = 1 := by decide
  refine ⟨rfl, ?_, ?_, ?_, ?_, by rw [h2]; decide, ?_, by decide, by simp [blockable_notify]⟩
  · unfold unblock
    split <;> omega
  · intro hc
    simp [unblock, hc]
  · intro hc
    simp [unblock, hc]
  · intro hc
    simp [blockable_notify, hc]
  · rw [h2]
    simp [blockable_notify]

/-- Witness for C6 at counter zero with one registered observer. -/
theorem blockable_counter_semantics_w :
    blockable_notify (unblock (block (block 0))) [4] (5 : Nat) = [] :=
  (blockable_counter_semantics 0 [4] (5 : Nat) (by decide)).2.2.2.2.2.2.1

/-- C7: `set_block_state` leaves the counter unchanged when the requested
state equals the current effective state, otherwise snaps it to 1 or 0, and
always returns the effective state that held before the call; calling
`set_block_state true` twice leaves the state unchanged and returns true the
second time. -/
theorem set_block_state_semantics (c : Int) (b : Bool) :
    (b = true → c ≠ 0 → (set_block_state c b).1 = c) ∧
    (b = false → c = 0 → (set_block_state c b).1 = c) ∧
    (b = true → c = 0 → (set_block_state c b).1 = 1) ∧
    (b = false → c ≠ 0 → (set_block_state c b).1 = 0) ∧
    ((set_block_state c b).2 = true ↔ c ≠ 0) ∧
    set_block_state (set_block_state c true).1 true = ((set_block_state c true).1, true) := by
  rcases b <;> by_cases hc : c = 0 <;> simp [set_block_state, hc]

/-- Witness for C7: forcing an unblocked state on a blocked counter. -/
theorem set_block_state_semantics_w :
    (set_block_state 5 false).1 = 0 ∧
    set_block_state (set_block_state 5 true).1 true = ((set_block_state 5 true).1, true) :=
  ⟨(set_block_state_semantics 5 false).2.2.2.1 rfl (by decide),
   (set_block_state_semantics 5 false).2.2.2.2.2⟩

/-- C8: `subject_base::disconnect` removes exactly the most recently added
matching entry, leaving all other entries and their order unchanged, and is a
silent no-op when the observer is not registered. -/
theorem subject_disconnect_removes_last_match (reg : List ObsId) (o : ObsId) :
    (o ∉ reg → subject_disconnect reg o = reg) ∧
    (o ∈ reg → ∃ l1 l2, reg = l1 ++ o :: l2 ∧ o ∉ l2 ∧ subject_disconnect reg o = l1 ++ l2) := by
  constructor
  · intro h
    exact erase_last_not_mem h
  · intro h
    obtain ⟨r1, r2, hno, hsplit, herase⟩ :=
      List.exists_erase_eq (show o ∈ reg.reverse by simpa using h)
    refine ⟨r2.reverse, r1.reverse, ?_, by simpa using hno, ?_⟩
    · have hr := congrArg List.reverse hsplit
      simpa using hr
    · unfold subject_disconnect erase_last
      rw [herase]
      simp

/-- Witness for C8: disconnecting a non-member is a no-op. -/
theorem subject_disconnect_removes_last_match_w :
    subject_disconnect [2, 3] 5 = [2, 3] :=
  (subject_disconnect_removes_last_match [2, 3] 5).1 (by decide)

/-- C2: destroying the subject first leaves the owner's registry free of that
subject's adapters; the owner's later destruction then frees each adapter
exactly once and never enters the dead subject; destroying the owner first
removes every owned adapter from its subject's registry, so a subsequent
notify delivers to none of them. -/
theorem mutual_teardown_safety (ad : ObsId → Nat) (st : OState) (s : Nat)
    (hW : WF ad st) (hT : s ∉ st.touched) :
    (∀ o ∈ (destroy_subject s st).ownerReg, ad o ≠ s) ∧
    (∀ o ∈ st.ownerReg,
      (destroy_owner ad (destroy_subject s st)).deleted.count o
        = st.deleted.count o + 1) ∧
    s ∉ (destroy_owner ad (destroy_subject s st)).touched ∧
    (∀ s2, (destroy_owner ad st).subjReg s2 = []) ∧
    (∀ s2 (args : Nat), subject_notify ((destroy_owner ad st).subjReg s2) args = []) := by
  obtain ⟨hN, hsub, hmem_s, hmem_o⟩ := hW
  have hds := destroy_subject_spec ad st s ⟨hN, hsub, hmem_s, hmem_o⟩
  have hfree : ∀ o ∈ (destroy_subject s st).ownerReg, ad o ≠ s := by
    intro o ho had
    rw [hds.1] at ho
    have := List.of_mem_filter ho
    exact (by simpa using this : o ∉ st.subjReg s)
      (had ▸ hmem_o o (List.mem_of_mem_filter ho))
  have hsub1 : ∀ s2, ((destroy_subject s st).subjReg s2).Nodup := by
    intro s2
    rw [hds.2.2.2 s2]
    split
    · exact List.nodup_nil
    · exact hsub s2
  have hfold1 := fold_owner_dtor ad (destroy_subject s st).ownerReg.reverse
    (destroy_subject s st) hsub1
  have hfold0 := fold_owner_dtor ad st.ownerReg.reverse st hsub
  have hN1 : (destroy_subject s st).ownerReg.Nodup := by
    rw [hds.1]
    exact hN.filter _
  refine ⟨hfree, ?_, ?_, ?_, ?_⟩
  · intro o ho
    show ((destroy_subject s st).ownerReg.reverse.foldl (owner_dtor_step ad)
      (destroy_subject s st)).deleted.count o = _
    rw [hfold1.1, hds.2.1, List.count_append, List.count_append, List.count_reverse,
      List.count_reverse]
    by_cases hos : o ∈ st.subjReg s
    · have h1 : (st.subjReg s).count o = 1 := List.count_eq_one_of_mem (hsub s) hos
      have h0 : (destroy_subject s st).ownerReg.count o = 0 := by
        apply List.count_eq_zero_of_not_mem
        rw [hds.1]
        intro hmem
        exact (by simpa using List.of_mem_filter hmem : o ∉ st.subjReg s) hos
      omega
    · have h1 : (st.subjReg s).count o = 0 := List.count_eq_zero_of_not_mem hos
      have h0 : (destroy_subject s st).ownerReg.count o = 1 := by
        apply List.count_eq_one_of_mem hN1
        rw [hds.1]
        exact List.mem_filter.mpr ⟨ho, by simpa using hos⟩
      omega
  · show s ∉ ((destroy_subject s st).ownerReg.reverse.foldl (owner_dtor_step ad)
      (destroy_subject s st)).touched
    rw [hfold1.2.1, hds.2.2.1]
    simp only [List.mem_append, List.mem_map, List.mem_reverse]
    rintro (h | ⟨o, ho, had⟩)
    · exact hT h
    · exact hfree o ho had
  · intro s2
    show ((st.ownerReg.reverse.foldl (owner_dtor_step ad) st).subjReg s2) = []
    apply List.eq_nil_iff_forall_not_mem.mpr
    intro x hx
    rw [hfold0.2.2.2.2 s2 x] at hx
    obtain ⟨hxs, hn⟩ := hx
    obtain ⟨had, howner⟩ := hmem_s x s2 hxs
    exact hn ⟨by simpa using howner, had⟩
  · intro s2 args
    show subject_notify ((st.ownerReg.reverse.foldl (owner_dtor_step ad) st).subjReg s2)
      args = []
    have h0 : ((st.ownerReg.reverse.foldl (owner_dtor_step ad) st).subjReg s2) = [] := by
      apply List.eq_nil_iff_forall_not_mem.mpr
      intro x hx
      rw [hfold0.2.2.2.2 s2 x] at hx
      obtain ⟨hxs, hn⟩ := hx
      obtain ⟨had, howner⟩ := hmem_s x s2 hxs
      exact hn ⟨by simpa using howner, had⟩
    rw [h0]
    rfl

/-- Witness for C2: two adapters on one subject, subject destroyed first. -/
theorem mutual_teardown_safety_w :
    (destroy_owner exAd (destroy_subject 0 exSt)).deleted.count 0
      = exSt.deleted.count 0 + 1 ∧
    0 ∉ (destroy_owner exAd (destroy_subject 0 exSt)).touched :=
  ⟨(mutual_teardown_safety exAd exSt 0 exSt_WF (by simp [exSt])).2.1 0 (by simp [exSt]),
   (mutual_teardown_safety exAd exSt 0 exSt_WF (by simp [exSt])).2.2.1⟩

/-- C5: `connection_owner::disconnect` on a handle registered with this owner
detaches the adapter from its subject and deletes it, leaving every other
entry in place; on a null, stale or foreign handle it is a no-op on all
registries; disconnecting twice equals disconnecting once, and afterwards
notify does not invoke the removed observer. -/
theorem owner_disconnect_semantics (ad : ObsId → Nat) (st : OState) (hW : WF ad st) :
    (∀ o, o ∈ st.ownerReg →
      o ∉ (owner_disconnect ad (some o) st).ownerReg ∧
      o ∉ (owner_disconnect ad (some o) st).subjReg (ad o) ∧
      (owner_disconnect ad (some o) st).deleted = st.deleted ++ [o] ∧
      (∀ x, x ≠ o →
        ((x ∈ (owner_disconnect ad (some o) st).ownerReg ↔ x ∈ st.ownerReg) ∧
         (∀ s2, x ∈ (owner_disconnect ad (some o) st).subjReg s2 ↔ x ∈ st.subjReg s2)))) ∧
    owner_disconnect ad none st = st ∧
    (∀ o, o ∉ st.ownerReg → owner_disconnect ad (some o) st = st) ∧
    (∀ c, owner_disconnect ad c (owner_disconnect ad c st) = owner_disconnect ad c st) ∧
    (∀ o, o ∈ st.ownerReg → ∀ (args : Nat),
      ∀ p ∈ subject_notify ((owner_disconnect ad (some o) st).subjReg (ad o)) args,
        p.1 ≠ o) := by
  obtain ⟨hN, hsub, hmem_s, hmem_o⟩ := hW
  have hpos : ∀ o, o ∈ st.ownerReg → owner_disconnect ad (some o) st =
      { st with
        subjReg := fun s =>
          if s = ad o then subject_disconnect (st.subjReg (ad o)) o else st.subjReg s,
        touched := st.touched ++ [ad o],
        ownerReg := erase_last st.ownerReg o,
        deleted := st.deleted ++ [o] } := by
    intro o ho
    simp [owner_disconnect, ho, remove_from_subject]
  have hnotin : ∀ o, o ∈ st.ownerReg →
      o ∉ (owner_disconnect ad (some o) st).ownerReg := by
    intro o ho
    rw [hpos o ho]
    show o ∉ erase_last st.ownerReg o
    rw [mem_erase_last_iff hN]
    rintro ⟨-, h⟩
    exact h rfl
  have hnots : ∀ o, o ∈ st.ownerReg →
      o ∉ (owner_disconnect ad (some o) st).subjReg (ad o) := by
    intro o ho
    rw [hpos o ho]
    show o ∉ if ad o = ad o then subject_disconnect (st.subjReg (ad o)) o else _
    rw [if_pos rfl]
    rw [show subject_disconnect (st.subjReg (ad o)) o = erase_last (st.subjReg (ad o)) o
      from rfl, mem_erase_last_iff (hsub (ad o))]
    rintro ⟨-, h⟩
    exact h rfl
  refine ⟨?_, rfl, ?_, ?_, ?_⟩
  · intro o ho
    refine ⟨hnotin o ho, hnots o ho, by rw [hpos o ho], ?_⟩
    intro x hx
    rw [hpos o ho]
    constructor
    · show x ∈ erase_last st.ownerReg o ↔ x ∈ st.ownerReg
      rw [mem_erase_last_iff hN]
      exact ⟨fun h => h.1, fun h => ⟨h, hx⟩⟩
    · intro s2
      show (x ∈ if s2 = ad o then subject_disconnect (st.subjReg (ad o)) o
        else st.subjReg s2) ↔ x ∈ st.subjReg s2
      split
      · rename_i hs2
        rw [hs2]
        rw [show subject_disconnect (st.subjReg (ad o)) o = erase_last (st.subjReg (ad o)) o
          from rfl, mem_erase_last_iff (hsub (ad o))]
        exact ⟨fun h => h.1, fun h => ⟨h, hx⟩⟩
      · exact Iff.rfl
  · intro o ho
    simp [owner_disconnect, ho]
  · intro c
    match c with
    | none => rfl
    | some o =>
      by_cases ho : o ∈ st.ownerReg
      · have h2 := hnotin o ho
        simp [owner_disconnect, ho] at h2 ⊢
        simp [h2]
      · simp [owner_disconnect, ho]
  · intro o ho args p hp
    rw [subject_notify_eq_map] at hp
    obtain ⟨x, hx, rfl⟩ := List.mem_map.mp hp
    intro hxo
    exact hnots o ho (hxo ▸ hx)

/-- Witness for C5: disconnecting a live handle, and a null handle no-op. -/
theorem owner_disconnect_semantics_w :
    1 ∉ (owner_disconnect exAd (some 1) exSt).ownerReg ∧
    owner_disconnect exAd none exSt = exSt :=
  ⟨((owner_disconnect_semantics exAd exSt exSt_WF).1 1 (by simp [exSt])).1,
   (owner_disconnect_semantics exAd exSt exSt_WF).2.1⟩

/-- C9: `reset` deletes the held adapter (detaching it from its subject) and
leaves the handle empty, a no-op when already empty; move assignment deletes
the destination's current adapter first, then takes ownership of the source's
adapter and empties the source, whose later destruction then does nothing;
destruction behaves like `reset`. -/
theorem scoped_connection_semantics (st : SState) :
    sc_reset none st = (none, st) ∧
    (∀ o, (sc_reset (some o) st).1 = none ∧
      (sc_reset (some o) st).2.deleted = st.deleted ++ [o]) ∧
    (∀ o, st.subjReg.Nodup → st.backref o = true →
      o ∉ (sc_reset (some o) st).2.subjReg) ∧
    (∀ dst src, (sc_move_assign dst src st).1 = src ∧
      (sc_move_assign dst src st).2.1 = none ∧
      (sc_move_assign dst src st).2.2 = sc_delete dst st) ∧
    (∀ od src, (sc_move_assign (some od) src st).2.2.deleted = st.deleted ++ [od]) ∧
    sc_dtor none st = st ∧
    (∀ c, sc_dtor c st = (sc_reset c st).2) := by
  refine ⟨rfl, ?_, ?_, fun dst src => ⟨rfl, rfl, rfl⟩, ?_, rfl, fun c => rfl⟩
  · intro o
    refine ⟨rfl, ?_⟩
    show (delete_adapter o st).deleted = _
    unfold delete_adapter
    split <;> rfl
  · intro o hnod hb
    show o ∉ (delete_adapter o st).subjReg
    simp only [delete_adapter, hb, if_true]
    rw [show subject_disconnect st.subjReg o = erase_last st.subjReg o from rfl,
      mem_erase_last_iff hnod]
    rintro ⟨-, h⟩
    exact h rfl
  · intro od src
    show (delete_adapter od st).deleted = _
    unfold delete_adapter
    split <;> rfl

/-- Witness for C9: resetting a live scoped connection removes the adapter
from the subject's registry; destroying an empty handle does nothing. -/
theorem scoped_connection_semantics_w :
    7 ∉ (sc_reset (some 7) exS).2.subjReg ∧ sc_dtor none exS = exS :=
  ⟨(scoped_connection_semantics exS).2.2.1 7 (by decide) (by decide),
   (scoped_connection_semantics exS).2.2.2.2.2.1⟩

/-- C10: when the subject is destroyed while the scoped connection still holds
the adapter, the teardown nulls the adapter's subject back-reference, so the
later deletion of the adapter does not call back into the destroyed subject;
when the subject is alive at adapter destruction, the adapter removes itself
from the subject's registry exactly once. -/
theorem scoped_adapter_teardown (st : SState) (o : ObsId) :
    (o ∈ st.subjReg → (destroy_scoped_subject st).backref o = false) ∧
    (o ∈ st.subjReg →
      (delete_adapter o (destroy_scoped_subject st)).subjCalls
        = (destroy_scoped_subject st).subjCalls ∧
      (delete_adapter o (destroy_scoped_subject st)).deleted
        = (destroy_scoped_subject st).deleted ++ [o]) ∧
    (st.backref o = true →
      (delete_adapter o st).subjCalls = st.subjCalls ++ [o] ∧
      (delete_adapter o st).deleted = st.deleted ++ [o] ∧
      (st.subjReg.Nodup → o ∉ (delete_adapter o st).subjReg)) := by
  have hspec := destroy_scoped_subject_spec st
  refine ⟨fun h => hspec.2.2.2 o h, ?_, ?_⟩
  · intro h
    have hb := hspec.2.2.2 o h
    constructor <;> simp [delete_adapter, hb]
  · intro hb
    refine ⟨by simp [delete_adapter, hb], by simp [delete_adapter, hb], ?_⟩
    intro hnod
    simp only [delete_adapter, hb, if_true]
    rw [show subject_disconnect st.subjReg o = erase_last st.subjReg o from rfl,
      mem_erase_last_iff hnod]
    rintro ⟨-, h⟩
    exact h rfl

/-- Witness for C10: a destroyed subject clears the back-reference, and a live
adapter deletion calls into the subject exactly once. -/
theorem scoped_adapter_teardown_w :
    (destroy_scoped_subject exS).backref 7 = false ∧
    (delete_adapter 7 exS).subjCalls = exS.subjCalls ++ [7] :=
  ⟨(scoped_adapter_teardown exS 7).1 (by decide),
   ((scoped_adapter_teardown exS 7).2.2 (by decide)).1⟩

end PGObserver
